import Mathlib

/-!
# Verification of the hotel-data merge and deduplication engine

Shallow embedding of `hotel_merger/utils.py`: the text-normalization
primitives, the positional similarity metric, the fuzzy and structural
deduplicators, image standardization, and the `merge_hotel_data`
aggregation driver.

Modelling conventions:
* Python strings are `String`; `str.strip()`, `str.lower()`,
  `str.capitalize()` are embedded character-by-character (inputs of
  interest are ASCII, where Lean's `Char.toLower`/`Char.toUpper` agree
  with Python).
* Raw hotel records are semi-structured dicts; they are embedded as a
  fixed record of `Option`-fields, `none` meaning the key is absent or
  has value `None` (both behave identically under `dict.get` and under
  Python truthiness, the only ways the merger consumes them).
  Numeric scalars (`lat`, `lng`, `destination_id`) are embedded as
  `Int`: the merger only ever tests their truthiness (`0` falsy).
* `dict[key]` on a possibly-missing key is a `KeyError`; fallible code
  runs in `Except String`.
* The similarity value is an exact rational.  The Python float
  comparison `matches / max_len >= cutoff` at the default cutoff `0.8`
  coincides with the exact comparison `matches / max_len ≥ 4/5` for all
  realistic string lengths (the two rationals, when distinct, differ by
  at least `1 / (5 * max_len)`, far above double rounding error, and
  `matches / max_len = 4/5` rounds to the same double as the literal
  `0.8`).  The executable guard `simTest` performs the equivalent
  integer cross-multiplication; `simTest_eq` proves it equal to the
  rational comparison.
-/

set_option autoImplicit false

namespace HotelMerger

/-! ## Python string primitives -/

/-- Python `str.strip()` whitespace set (ASCII part). -/
def isPySpace (c : Char) : Bool :=
  c = ' ' || c = '\t' || c = '\n' || c = '\r' || c = '\x0b' || c = '\x0c'

def pyStripList (l : List Char) : List Char :=
  ((l.dropWhile isPySpace).reverse.dropWhile isPySpace).reverse

/-- Python `str.strip()`. -/
def pyStrip (s : String) : String := ⟨pyStripList s.data⟩

/-- Python `str.lower()` (ASCII). -/
def pyLower (s : String) : String := ⟨s.data.map Char.toLower⟩

/-- Python `str.capitalize()`: first character uppercased, all
remaining characters lowercased. -/
def pyCapitalizeList : List Char → List Char
  | [] => []
  | c :: rest => c.toUpper :: rest.map Char.toLower

def isLowerAlnum (c : Char) : Bool :=
  ('a' ≤ c && c ≤ 'z') || ('0' ≤ c && c ≤ '9')

/-- `normalize_amenity` (utils.py line 13):
`re.sub(r'[^a-z0-9]', '', amenity.lower())`. -/
def normalize_amenity (amenity : String) : String :=
  ⟨(pyLower amenity).data.filter isLowerAlnum⟩

/-- Count of positions where the zipped prefixes of two
character sequences agree: `sum(1 for a, b in zip(str1, str2) if a == b)`. -/
def matchCount : List Char → List Char → Nat
  | x :: xs, y :: ys => (if x = y then 1 else 0) + matchCount xs ys
  | _, _ => 0

/-- `string_similarity` (utils.py line 25): matching positions over the
zipped prefix, divided by the longer length; `0` when both strings are
empty. -/
def string_similarity (str1 str2 : String) : ℚ :=
  let m := max str1.length str2.length
  if m = 0 then 0 else (matchCount str1.data str2.data : ℚ) / m

/-- The default similarity cutoff `0.8` as the exact rational `4/5`,
in normalized form so that it evaluates. -/
def defaultCutoff : ℚ := ⟨4, 5, by norm_num, by norm_num⟩

/-- Executable form of the guard `similarity >= cutoff` of utils.py
line 57, by integer cross-multiplication (see `simTest_eq`). -/
def simTest (cutoff : ℚ) (str1 str2 : String) : Bool :=
  let m := max str1.length str2.length
  if m = 0 then decide (cutoff ≤ 0)
  else decide (cutoff.num * m ≤ (matchCount str1.data str2.data : Int) * cutoff.den)

/-! ## Fuzzy string deduplicator (`deduplicate_amenities_fuzzy`) -/

/-- The inner `for idx, unique_norm in enumerate(normalized_unique)`
loop of `deduplicate_amenities_fuzzy` (utils.py lines 55-63), acting on
the paired list of display texts and normalized keys.  Returns `none`
when no representative matches (`match_found` stays false), otherwise
the updated representative list: on the first representative whose key
passes the similarity test, the representative is replaced by the
trimmed incoming string (and its normalized key) when the trimmed
incoming string is strictly longer than the stored display text. -/
def insertAmenity (cutoff : ℚ) (amenity : String) (aNorm : String) :
    List (String × String) → Option (List (String × String))
  | [] => none
  | (disp, key) :: rest =>
    if simTest cutoff aNorm key then
      if disp.length < (pyStrip amenity).length then
        some ((pyStrip amenity, aNorm) :: rest)
      else
        some ((disp, key) :: rest)
    else
      match insertAmenity cutoff amenity aNorm rest with
      | some rest2 => some ((disp, key) :: rest2)
      | none => none

/-- The outer `for amenity in amenities` loop of
`deduplicate_amenities_fuzzy` (utils.py lines 52-66). -/
def dedupFuzzyAux (cutoff : ℚ) : List (String × String) → List String → List (String × String)
  | reps, [] => reps
  | reps, amenity :: rest =>
    match insertAmenity cutoff amenity (normalize_amenity amenity) reps with
    | some reps2 => dedupFuzzyAux cutoff reps2 rest
    | none => dedupFuzzyAux cutoff (reps ++ [(pyStrip amenity, normalize_amenity amenity)]) rest

/-- `deduplicate_amenities_fuzzy` (utils.py line 39); the Python
default for `cutoff` is `defaultCutoff`. -/
def deduplicate_amenities_fuzzy (amenities : List String) (cutoff : ℚ) : List String :=
  (dedupFuzzyAux cutoff [] amenities).map Prod.fst

/-! ## Sentence capitalization (`capitalize_first_letter`) -/

def isPunct (c : Char) : Bool := c = '.' || c = '!' || c = '?'

/-- `re.split('(?<=[.!?]) +', text)`: split on maximal runs of spaces
preceded by `.`, `!` or `?`.  Arguments: remaining input, current
fragment (reversed), whether the previous character was sentence
punctuation, and whether we are inside a separator run of spaces. -/
def splitSentencesAux : List Char → List Char → Bool → Bool → List (List Char)
  | [], cur, _, _ => [cur.reverse]
  | c :: rest, cur, prevP, skipping =>
    if skipping then
      if c = ' ' then splitSentencesAux rest cur false true
      else splitSentencesAux rest [c] (isPunct c) false
    else if prevP && c = ' ' then
      cur.reverse :: splitSentencesAux rest [] false true
    else
      splitSentencesAux rest (c :: cur) (isPunct c) false

/-- `' '.join(...)` over character-list fragments. -/
def joinSpace : List (List Char) → List Char
  | [] => []
  | [x] => x
  | x :: xs => x ++ ' ' :: joinSpace xs

/-- `capitalize_first_letter` (utils.py line 129): split into
sentences, keep the non-empty fragments (pre-strip, as in the source's
`if s` filter), strip and `str.capitalize()` each, join with single
spaces. -/
def capitalize_first_letter (text : String) : String :=
  ⟨joinSpace (((splitSentencesAux text.data [] false false).filter (· ≠ [])).map
    (fun s => pyCapitalizeList (pyStripList s)))⟩

/-! ## Structural list deduplicator for images (`deduplicate_list`) -/

/-- An image entry `{link, description}`.  `deduplicate_list` compares
entries by `json.dumps(item, sort_keys=True)`, i.e. by their canonical
key-sorted form, which for this shape is exactly structural equality of
the pair. -/
structure Image where
  link : String
  description : String
deriving DecidableEq

/-- The dict-comprehension branch of `deduplicate_list` (utils.py
line 207): first occurrence of each canonical form keeps its position;
a later duplicate carries an identical value, so keeping the first
occurrence embeds the comprehension faithfully. -/
def dedupImagesAux : List Image → List Image → List Image
  | _, [] => []
  | seen, i :: rest =>
    if i ∈ seen then dedupImagesAux seen rest
    else i :: dedupImagesAux (i :: seen) rest

/-- `deduplicate_list` (utils.py line 193) as applied by the merger to
image lists (lists of dicts). -/
def deduplicate_list_images (items : List Image) : List Image :=
  dedupImagesAux [] items

/-! ## The record model -/

structure HLocation where
  lat : Option Int
  lng : Option Int
  address : Option String
  city : Option String
  country : Option String
deriving DecidableEq

structure HAmenities where
  general : Option (List String)
  room : Option (List String)
deriving DecidableEq

structure HImages where
  rooms : Option (List Image)
  site : Option (List Image)
  amenities : Option (List Image)
deriving DecidableEq

/-- A raw hotel record as consumed by `merge_hotel_data`: a dict whose
keys may each be absent (`none`). -/
structure Hotel where
  id : Option String
  destination_id : Option Int
  name : Option String
  description : Option String
  location : Option HLocation
  amenities : Option HAmenities
  images : Option HImages
  booking_conditions : Option (List String)
deriving DecidableEq

/-- Python truthiness of an optional string (`None` and `""` falsy). -/
def truthyS : Option String → Bool
  | none => false
  | some s => s ≠ ""

/-- Python truthiness of an optional number (`None` and `0` falsy). -/
def truthyI : Option Int → Bool
  | none => false
  | some n => n ≠ 0

/-- Python `a or b` on optional strings. -/
def pyOrS (a b : Option String) : Option String := if truthyS a then a else b

/-- Python `a or b` on optional numbers. -/
def pyOrI (a b : Option Int) : Option Int := if truthyI a then a else b

/-! ## The record merger (else-branch of utils.py lines 236-296) -/

/-- `record["location"]`: raises `KeyError` when the key is absent. -/
def getLocation (h : Hotel) : Except String HLocation :=
  match h.location with
  | some loc => .ok loc
  | none => .error "KeyError: location"

def emptyAmenities : HAmenities := ⟨none, none⟩

def emptyImages : HImages := ⟨none, none, none⟩

/-- Description selection (utils.py lines 239-246). -/
def mergeDescription (existing_description new_description : String) : String :=
  if existing_description = "" ∧ new_description ≠ "" then new_description
  else if existing_description ≠ "" ∧ new_description ≠ "" then
    (if new_description.length ≤ existing_description.length then existing_description
     else new_description)
  else if existing_description ≠ "" then existing_description else new_description

/-- `existing["location"].get(f) or hotel["location"].get(f)`: the
second operand — and hence the `KeyError` on a missing `location` of
`hotel` — is only evaluated when the first is falsy. -/
def locationField {α : Type} (exVal : Option α) (truthy : Option α → Bool) (hotel : Hotel)
    (f : HLocation → Option α) : Except String (Option α) :=
  if truthy exVal then .ok exVal else (getLocation hotel).map f

/-- The body of the `else` branch of `merge_hotel_data` (utils.py lines
236-296): merge an incoming record `hotel` into the accumulator
`existing` sharing the id `hotel_id`. -/
def mergeTwo (hotel_id : String) (existing hotel : Hotel) : Except String Hotel := do
  let existing_description := existing.description.getD ""
  let new_description := hotel.description.getD ""
  let merged_description := mergeDescription existing_description new_description
  let eloc ← getLocation existing
  let merged_address ← locationField eloc.address truthyS hotel (fun l => l.address)
  let merged_country ← locationField eloc.country truthyS hotel (fun l => l.country)
  let existing_general := (existing.amenities.getD emptyAmenities).general.getD []
  let new_general := (hotel.amenities.getD emptyAmenities).general.getD []
  let merged_general := deduplicate_amenities_fuzzy (existing_general ++ new_general) defaultCutoff
  let existing_room := (existing.amenities.getD emptyAmenities).room.getD []
  let new_room := (hotel.amenities.getD emptyAmenities).room.getD []
  let merged_room := deduplicate_amenities_fuzzy (existing_room ++ new_room) defaultCutoff
  let eimg := existing.images.getD emptyImages
  let nimg := hotel.images.getD emptyImages
  let merged_rooms := deduplicate_list_images (eimg.rooms.getD [] ++ nimg.rooms.getD [])
  let merged_site := deduplicate_list_images (eimg.site.getD [] ++ nimg.site.getD [])
  let merged_amenities_images :=
    deduplicate_list_images (eimg.amenities.getD [] ++ nimg.amenities.getD [])
  let merged_booking := existing.booking_conditions.getD [] ++ hotel.booking_conditions.getD []
  let merged_lat ← locationField eloc.lat truthyI hotel (fun l => l.lat)
  let merged_lng ← locationField eloc.lng truthyI hotel (fun l => l.lng)
  let merged_city ← locationField eloc.city truthyS hotel (fun l => l.city)
  pure {
    id := some hotel_id
    destination_id := pyOrI existing.destination_id hotel.destination_id
    name := pyOrS existing.name hotel.name
    description := some (capitalize_first_letter merged_description)
    location := some ⟨merged_lat, merged_lng, merged_address, merged_city, merged_country⟩
    amenities := some ⟨some merged_general, some merged_room⟩
    images := some ⟨some merged_rooms, some merged_site, some merged_amenities_images⟩
    booking_conditions := some (deduplicate_amenities_fuzzy merged_booking defaultCutoff) }

/-! ## The aggregation driver (`merge_hotel_data`, utils.py line 219)

The Python dict `merged` is embedded as an association list in key
insertion order: `merged[new_id] = h` appends, updating an existing key
keeps its position, and `list(merged.values())` maps `Prod.snd`. -/

def assocFind : List (String × Hotel) → String → Option Hotel
  | [], _ => none
  | (k, h) :: rest, key => if k = key then some h else assocFind rest key

def assocSet : List (String × Hotel) → String → Hotel → List (String × Hotel)
  | [], key, h => [(key, h)]
  | (k, h0) :: rest, key, h =>
    if k = key then (key, h) :: rest else (k, h0) :: assocSet rest key h

/-- The `for hotel in hotels` loop of `merge_hotel_data`
(utils.py lines 230-296). -/
def mergeFold : List (String × Hotel) → List Hotel → Except String (List (String × Hotel))
  | acc, [] => .ok acc
  | acc, hotel :: rest =>
    match hotel.id with
    | none => mergeFold acc rest
    | some hotel_id =>
      if hotel_id = "" then mergeFold acc rest
      else
        match assocFind acc hotel_id with
        | none => mergeFold (acc ++ [(hotel_id, hotel)]) rest
        | some existing => do
          let m ← mergeTwo hotel_id existing hotel
          mergeFold (assocSet acc hotel_id m) rest

/-- `merge_hotel_data` (utils.py line 219). -/
def merge_hotel_data (hotels : List Hotel) : Except String (List Hotel) :=
  (mergeFold [] hotels).map (fun acc => acc.map Prod.snd)

/-! ## Image standardization (`standardize_images`, utils.py line 155) -/

/-- An element of a supplier image list: either not a dict (skipped by
the `isinstance` check) or a dict whose `link`/`url`/`description`/
`caption` keys may each be absent or `None`. -/
inductive ImgItem where
  | scalar
  | obj (link url description caption : Option String)
deriving DecidableEq

/-- The `images` argument of `standardize_images`: `None`/non-dict, or
a dict whose three category keys may each be absent. -/
inductive ImagesInput where
  | notDict
  | obj (rooms site amenities : Option (List ImgItem))
deriving DecidableEq

structure StdImages where
  rooms : List Image
  site : List Image
  amenities : List Image
deriving DecidableEq

/-- The `for img in images.get(category, [])` loop of
`standardize_images` (utils.py lines 169-178). -/
def standardizeCategory : List ImgItem → List Image
  | [] => []
  | .scalar :: rest => standardizeCategory rest
  | .obj l u d c :: rest =>
    match pyOrS l u with
    | some link =>
      if link = "" then standardizeCategory rest
      else
        ⟨pyStrip link,
         capitalize_first_letter (pyStrip ((pyOrS d (pyOrS c (some ""))).getD ""))⟩ ::
          standardizeCategory rest
    | none => standardizeCategory rest

/-- `standardize_images` (utils.py line 155). -/
def standardize_images : ImagesInput → StdImages
  | .notDict => ⟨[], [], []⟩
  | .obj r s a =>
    ⟨standardizeCategory (r.getD []), standardizeCategory (s.getD []),
     standardizeCategory (a.getD [])⟩

/-! ## Specification-side definitions, used to state the claims -/

/-- A record's usable id: `none` when the `id` key is missing or empty
(such records are skipped by the driver). -/
def validId (h : Hotel) : Option String :=
  match h.id with
  | none => none
  | some i => if i = "" then none else some i

/-- First-occurrence deduplication of a list of ids, given the ids
already seen. -/
def keepFirstAux (seen : List String) : List String → List String
  | [] => []
  | x :: xs => if x ∈ seen then keepFirstAux seen xs else x :: keepFirstAux (x :: seen) xs

/-- Whether a string contains a character that `str.strip()` would
keep, i.e. is neither empty nor whitespace-only. -/
def hasNonWs (s : String) : Bool := s.data.any (fun c => !isPySpace c)

/-- The shape every record produced by a successful pairwise merge
has, parametrized by the merged location `ml` (whose computation may
read the incoming record's `location` lazily): all other fields are
determined by the two inputs. -/
def mergeShape (hotel_id : String) (existing hotel : Hotel) (ml : HLocation) : Hotel :=
  { id := some hotel_id
    destination_id := pyOrI existing.destination_id hotel.destination_id
    name := pyOrS existing.name hotel.name
    description := some (capitalize_first_letter
      (mergeDescription (existing.description.getD "") (hotel.description.getD "")))
    location := some ml
    amenities := some ⟨some (deduplicate_amenities_fuzzy
        ((existing.amenities.getD emptyAmenities).general.getD []
          ++ (hotel.amenities.getD emptyAmenities).general.getD []) defaultCutoff),
      some (deduplicate_amenities_fuzzy
        ((existing.amenities.getD emptyAmenities).room.getD []
          ++ (hotel.amenities.getD emptyAmenities).room.getD []) defaultCutoff)⟩
    images := some ⟨some (deduplicate_list_images
        ((existing.images.getD emptyImages).rooms.getD []
          ++ (hotel.images.getD emptyImages).rooms.getD [])),
      some (deduplicate_list_images
        ((existing.images.getD emptyImages).site.getD []
          ++ (hotel.images.getD emptyImages).site.getD [])),
      some (deduplicate_list_images
        ((existing.images.getD emptyImages).amenities.getD []
          ++ (hotel.images.getD emptyImages).amenities.getD []))⟩
    booking_conditions := some (deduplicate_amenities_fuzzy
      (existing.booking_conditions.getD [] ++ hotel.booking_conditions.getD [])
      defaultCutoff) }

/-- The record produced by a successful pairwise merge of two records
whose `location` sub-mappings are `el` and `hl`: every scalar field is
Python-`or`-coalesced, list fields are concatenated and deduplicated
(see `mergeTwo_ok`). -/
def mergeResult (hotel_id : String) (existing hotel : Hotel) (el hl : HLocation) : Hotel :=
  mergeShape hotel_id existing hotel
    ⟨pyOrI el.lat hl.lat, pyOrI el.lng hl.lng, pyOrS el.address hl.address,
      pyOrS el.city hl.city, pyOrS el.country hl.country⟩

/-- One step of the Fuzzy String Deduplicator as described by the
specification: find the first accepted representative whose normalized
key passes the similarity cutoff; if one exists, replace its display
text and key by the trimmed incoming string exactly when that string is
strictly longer; otherwise append the trimmed incoming string as a new
representative. -/
def fuzzyStepSpec (cutoff : ℚ) (reps : List (String × String)) (amenity : String) :
    List (String × String) :=
  match reps.findIdx?
      (fun r => decide (cutoff ≤ string_similarity (normalize_amenity amenity) r.2)) with
  | some idx =>
    if (reps.getD idx ("", "")).1.length < (pyStrip amenity).length then
      reps.set idx (pyStrip amenity, normalize_amenity amenity)
    else reps
  | none => reps ++ [(pyStrip amenity, normalize_amenity amenity)]

/-- The Fuzzy String Deduplicator as described by the specification: a
left fold of `fuzzyStepSpec` returning the representatives' display
texts in acceptance order. -/
def dedupFuzzySpec (cutoff : ℚ) (amenities : List String) : List String :=
  (amenities.foldl (fuzzyStepSpec cutoff) []).map Prod.fst

/-- The per-item image rule as described by the claim: an output item
exists exactly for input dict items whose link (read from `link` or
`url`) is truthy; the link is stripped, and the description (read from
`description` or `caption`, defaulting to empty) is stripped and
sentence-cased. -/
def imageItemSpec : ImgItem → Option Image
  | .scalar => none
  | .obj l u d c =>
    if truthyS (pyOrS l u) then
      some ⟨pyStrip ((pyOrS l u).getD ""),
        capitalize_first_letter (pyStrip ((pyOrS d (pyOrS c (some ""))).getD ""))⟩
    else none

/-! ## Concrete records used by counterexamples and witnesses -/

def emptyLocation : HLocation := ⟨none, none, none, none, none⟩

def recC3a : Hotel := ⟨some "X", none, none, some "", none, none, none, none⟩

def recC3b : Hotel := ⟨some "X", none, none, some "Ocean views.", none, none, none, none⟩

def recC3c : Hotel := ⟨some "X", none, none, some "A short stay.", none, none, none, none⟩

def recC3a' : Hotel := { recC3a with location := some emptyLocation }

def recC3b' : Hotel := { recC3b with location := some emptyLocation }

def recC3c' : Hotel := { recC3c with location := some emptyLocation }

/-- The record `merge_hotel_data` produces for the three
location-extended C3 records. -/
def recC3merged : Hotel :=
  ⟨some "X", none, none, some "A short stay.", some emptyLocation,
    some ⟨some [], some []⟩, some ⟨some [], some [], some []⟩, some []⟩

def recC2a : Hotel :=
  ⟨some "X", none, none, none, some ⟨some 0, none, none, none, none⟩, none, none, none⟩

def recC2b : Hotel := ⟨some "X", none, none, none, some emptyLocation, none, none, none⟩

def recC2wA : Hotel :=
  ⟨some "X", some 5, some "Beach Villas", some "Nice view.",
    some ⟨some 1, none, some "8 Sentosa", none, none⟩, none, none, none⟩

def recC2wB : Hotel :=
  ⟨some "X", none, none, none,
    some ⟨none, some 2, none, some "Singapore", some "SG"⟩, none, none, none⟩

def recC5 : Hotel :=
  ⟨some "X", none, none, none, none, some ⟨some ["WiFi", "Wi-Fi"], none⟩, none, none⟩

def recC5w1 : Hotel :=
  ⟨some "X", none, none, none, some emptyLocation, some ⟨some ["Pool"], none⟩, none, none⟩

def recC5w2 : Hotel :=
  ⟨some "X", none, none, none, some emptyLocation, some ⟨some ["Gym"], none⟩, none, none⟩

def recC6 : Hotel := ⟨some "X", none, none, none, none, none, none, none⟩

def recC6w1 : Hotel :=
  ⟨some "X", none, none, none, some emptyLocation, none, none, none⟩

def recC6w2 : Hotel :=
  ⟨some "X", none, none, some "hi", some emptyLocation, none, none, none⟩

def recC1wA : Hotel :=
  ⟨some "A", none, none, none, some emptyLocation, none, none, none⟩

def recC1wB : Hotel :=
  ⟨some "B", none, none, none, some emptyLocation, none, none, none⟩

def recC1wEmpty : Hotel := ⟨some "", none, none, some "skip me", none, none, none, none⟩

def recC1wNone : Hotel := ⟨none, none, none, some "skip me too", none, none, none, none⟩

/-- Input list for the C1 witness: two valid ids (one repeated, so an
actual merge occurs) interleaved with records whose id is missing or
empty. -/
def recC1list : List Hotel := [recC1wB, recC1wNone, recC1wEmpty, recC1wA, recC1wB]

/-! # Supporting lemmas -/

theorem defaultCutoff_eq : defaultCutoff = 4/5 := by
  rw [defaultCutoff, Rat.mk'_eq_divInt, Rat.divInt_eq_div]; norm_num

/-- The executable guard `simTest` is exactly the source's comparison
`string_similarity(...) >= cutoff`. -/
theorem simTest_eq (cutoff : ℚ) (s1 s2 : String) :
    simTest cutoff s1 s2 = decide (cutoff ≤ string_similarity s1 s2) := by
  unfold simTest string_similarity
  by_cases h : max s1.length s2.length = 0
  · simp [h]
  · have hM : (0:ℤ) < ((max s1.length s2.length : Nat) : ℤ) := by
      exact_mod_cast Nat.pos_of_ne_zero h
    have e1 : ((matchCount s1.data s2.data : ℚ)) / ((max s1.length s2.length : Nat) : ℚ)
        = Rat.divInt (matchCount s1.data s2.data : ℤ) ((max s1.length s2.length : Nat) : ℤ) := by
      rw [Rat.divInt_eq_div]; push_cast; ring
    have e2 : (cutoff ≤ Rat.divInt (matchCount s1.data s2.data : ℤ)
          ((max s1.length s2.length : Nat) : ℤ))
        ↔ cutoff.num * (max s1.length s2.length : Nat)
          ≤ (matchCount s1.data s2.data : Int) * cutoff.den := by
      conv_lhs => rw [← Rat.num_divInt_den cutoff]
      rw [Rat.divInt_le_divInt (by exact_mod_cast cutoff.den_pos) hM]
    simp only [h, if_false, decide_eq_decide, e1, e2]

theorem matchCount_comm (xs ys : List Char) : matchCount xs ys = matchCount ys xs := by
  induction xs generalizing ys with
  | nil => cases ys <;> simp [matchCount]
  | cons x xs ih =>
    cases ys with
    | nil => simp [matchCount]
    | cons y ys => simp [matchCount, ih ys, eq_comm]

theorem string_similarity_comm (s1 s2 : String) :
    string_similarity s1 s2 = string_similarity s2 s1 := by
  unfold string_similarity
  rw [matchCount_comm, Nat.max_comm]

theorem matchCount_eq_countP (xs ys : List Char) :
    matchCount xs ys =
      (List.range (min xs.length ys.length)).countP
        (fun i => decide (xs.getD i ' ' = ys.getD i ' ')) := by
  induction xs generalizing ys with
  | nil => simp [matchCount]
  | cons x xs ih =>
    cases ys with
    | nil => simp [matchCount]
    | cons y ys =>
      have hcomp : ((fun i => decide ((x :: xs).getD i ' ' = (y :: ys).getD i ' ')) ∘ Nat.succ)
          = (fun i => decide (xs.getD i ' ' = ys.getD i ' ')) := by
        funext i; simp
      simp only [matchCount, List.length_cons, Nat.succ_min_succ, List.range_succ_eq_map,
        List.countP_cons, List.countP_map, hcomp]
      simp only [List.getD_cons_zero]
      rw [ih ys]
      by_cases hxy : x = y <;> simp [hxy, Nat.add_comm]

/-! # The claims -/

/-- **C7.**  `string_similarity a b` equals the number of positions `i`
below `min (len a) (len b)` at which `a[i] == b[i]`, divided by
`max (len a) (len b)`, and equals `0` when both strings are empty. -/
theorem claim_C7 (str1 str2 : String) :
    string_similarity str1 str2 =
      if str1.length = 0 ∧ str2.length = 0 then 0
      else ((List.range (min str1.length str2.length)).countP
            (fun i => decide (str1.data.getD i ' ' = str2.data.getD i ' ')) : ℚ)
        / (max str1.length str2.length) := by
  unfold string_similarity
  have hlen1 : str1.length = str1.data.length := rfl
  have hlen2 : str2.length = str2.data.length := rfl
  by_cases h : str1.length = 0 ∧ str2.length = 0
  · have hmax : max str1.length str2.length = 0 := by rw [Nat.max_eq_zero_iff]; exact h
    simp [h, hmax]
  · have hmax : ¬ max str1.length str2.length = 0 := by rw [Nat.max_eq_zero_iff]; exact h
    simp only [if_neg h, if_neg hmax, matchCount_eq_countP, hlen1, hlen2]
    simp [Nat.max_eq_zero_iff]

/-- **C3, counterexample.**  The claim merges the three records
`{id:"X", description:""}`, `{id:"X", description:"Ocean views."}`,
`{id:"X", description:"A short stay."}` and asserts the result has
description `"Ocean views."`.  On the code, (1) merging those records
as written raises `KeyError` at `existing["location"]` (utils.py line
249), since they carry no `location` key, so no merged record is
produced at all; and (2) even with an empty `location` sub-mapping
added to each record, the resulting description is `"A short stay."`
(13 characters), not `"Ocean views."` (12 characters), because the
second pairwise step keeps the strictly longer description. -/
theorem claim_C3_cex :
    merge_hotel_data [recC3a, recC3b, recC3c] = .error "KeyError: location"
    ∧ (merge_hotel_data [recC3a', recC3b', recC3c']).map (List.map Hotel.description)
      = .ok [some "A short stay."]
    ∧ "A short stay." ≠ "Ocean views." := by
  refine ⟨rfl, rfl, by decide⟩

/-- **C3, amended.**  Folding the three C3 records, each extended with
an (empty) `location` sub-mapping — required because the pairwise merge
reads `existing["location"]`/`hotel["location"]` unconditionally —
produces exactly one merged record, whose `description` is
`"A short stay."`: at the first pairwise step the non-empty
`"Ocean views."` replaces the empty description, and at the second step
`"A short stay."` wins because it is strictly longer (13 > 12
characters); ties would favor the existing side. -/
theorem claim_C3 :
    merge_hotel_data [recC3a', recC3b', recC3c'] = .ok [recC3merged]
    ∧ recC3merged.description = some "A short stay."
    ∧ ("Ocean views.".length < "A short stay.".length) := by
  refine ⟨rfl, rfl, by decide⟩

/-- **C9, counterexample.**  The claim asserts that deduplicating
`["WiFi", "Wi-Fi"]` at the default cutoff returns `["WiFi"]` (the
first-seen spelling), on the ground that the normalized keys have equal
length.  But the source compares the lengths of the *trimmed display
strings* (`len(amenity.strip()) > len(unique[idx])`, utils.py line 60),
not of the normalized keys: `"Wi-Fi"` has display length 5 > 4, so it
replaces `"WiFi"`, and the result is `["Wi-Fi"]`. -/
theorem claim_C9_cex :
    deduplicate_amenities_fuzzy ["WiFi", "Wi-Fi"] defaultCutoff ≠ ["WiFi"] := by
  decide

/-- **C9, amended.**  For the input `["WiFi", "Wi-Fi"]` (normalized
keys both `"wifi"`), the deduplicator at the default cutoff returns the
single-element list `["Wi-Fi"]`: the two strings are grouped, and the
incoming spelling replaces the first-seen one because its trimmed
display text is strictly longer (5 > 4 characters).  The first-seen
spelling survives only when the trimmed display lengths tie. -/
theorem claim_C9 :
    deduplicate_amenities_fuzzy ["WiFi", "Wi-Fi"] defaultCutoff = ["Wi-Fi"]
    ∧ normalize_amenity "WiFi" = normalize_amenity "Wi-Fi"
    ∧ "WiFi".length < "Wi-Fi".length := by
  refine ⟨rfl, rfl, by decide⟩

/-- **C2, counterexample.**  The claim asserts that a non-null numeric
latitude in either input yields a non-null merged latitude.  Merging
`{id:"X", location:{lat:0}}` with `{id:"X", location:{}}` refutes it:
`0` is non-null but falsy in Python, so `existing["location"].get("lat")
or hotel["location"].get("lat")` evaluates to `None`, and the merged
record's latitude is null although the first input's was not. -/
theorem claim_C2_cex :
    recC2a.location = some ⟨some 0, none, none, none, none⟩
    ∧ (merge_hotel_data [recC2a, recC2b]).map
        (List.map (fun (h : Hotel) => h.location.map HLocation.lat))
      = .ok [some none] := by
  refine ⟨rfl, rfl⟩

/-- **C5, counterexample.**  The claim asserts the deduplication
invariant for every output record, including ids contributed by a
single raw record.  But a record whose id appears only once is inserted
into the accumulator and returned *as-is* (utils.py line 235), with no
deduplication applied: the single record with
`amenities.general = ["WiFi", "Wi-Fi"]` comes back unchanged, although
its two entries have identical normalized keys, hence similarity `1 ≥
0.8` — they are duplicates in the sense of the fuzzy rule. -/
theorem claim_C5_cex :
    merge_hotel_data [recC5] = .ok [recC5]
    ∧ recC5.amenities = some ⟨some ["WiFi", "Wi-Fi"], none⟩
    ∧ defaultCutoff ≤ string_similarity (normalize_amenity "WiFi") (normalize_amenity "Wi-Fi") := by
  refine ⟨rfl, rfl, ?_⟩
  have h : simTest defaultCutoff (normalize_amenity "WiFi") (normalize_amenity "Wi-Fi") = true := by
    decide
  rw [simTest_eq] at h
  exact of_decide_eq_true h

/-- The inner loop of `deduplicate_amenities_fuzzy`, characterized by
`List.findIdx?`: it returns `none` exactly when no representative's
normalized key passes the similarity test, and otherwise updates the
representative at the *first* passing index — replacing it by the
trimmed incoming string exactly when that string is strictly longer. -/
theorem insertAmenity_eq_find (cutoff : ℚ) (a aNorm : String) :
    ∀ reps : List (String × String),
      insertAmenity cutoff a aNorm reps =
        match reps.findIdx? (fun r => simTest cutoff aNorm r.2) with
        | none => none
        | some idx => some (if (reps.getD idx ("", "")).1.length < (pyStrip a).length
            then reps.set idx (pyStrip a, aNorm) else reps)
  | [] => by simp [insertAmenity]
  | (d, k) :: rest => by
    rw [insertAmenity]
    by_cases hg : simTest cutoff aNorm k
    · simp only [hg, if_true, List.findIdx?_cons, List.getD_cons_zero, List.set_cons_zero]
      rw [apply_ite Option.some]
    · simp only [hg, if_false, Bool.false_eq_true, List.findIdx?_cons, List.findIdx?_succ]
      rw [insertAmenity_eq_find cutoff a aNorm rest]
      cases hres : List.findIdx? (fun r => simTest cutoff aNorm r.2) rest with
      | none => simp
      | some i =>
        simp only [Option.map_some', List.getD_cons_succ, List.set_cons_succ]
        rw [apply_ite (List.cons (d, k))]

theorem dedupFuzzyAux_eq_foldl (cutoff : ℚ) :
    ∀ (amenities : List String) (reps : List (String × String)),
      dedupFuzzyAux cutoff reps amenities = amenities.foldl (fuzzyStepSpec cutoff) reps
  | [], reps => rfl
  | a :: rest, reps => by
    have hpred : (fun r : String × String => simTest cutoff (normalize_amenity a) r.2)
        = (fun r : String × String =>
            decide (cutoff ≤ string_similarity (normalize_amenity a) r.2)) := by
      funext r; exact simTest_eq cutoff (normalize_amenity a) r.2
    rw [dedupFuzzyAux, List.foldl_cons, insertAmenity_eq_find]
    rw [show fuzzyStepSpec cutoff reps a =
        match reps.findIdx? (fun r => simTest cutoff (normalize_amenity a) r.2) with
        | some idx =>
          if (reps.getD idx ("", "")).1.length < (pyStrip a).length then
            reps.set idx (pyStrip a, normalize_amenity a)
          else reps
        | none => reps ++ [(pyStrip a, normalize_amenity a)]
      from by rw [fuzzyStepSpec, hpred]]
    cases hres : List.findIdx? (fun r => simTest cutoff (normalize_amenity a) r.2) reps with
    | none => exact dedupFuzzyAux_eq_foldl cutoff rest _
    | some i => exact dedupFuzzyAux_eq_foldl cutoff rest _

/-- **C8.**  For every input list and cutoff, the fuzzy deduplicator
equals the specification-style algorithm `dedupFuzzySpec`: a left fold
that, for each incoming string in order, finds the *first* accepted
representative whose normalized-key similarity is `≥ cutoff`, replaces
that representative's display text and normalized key by the trimmed
incoming string iff the trimmed string is strictly longer (equal length
keeps the existing representative), appends the trimmed string as a new
representative when none matches, and finally returns the
representatives' display texts in acceptance order. -/
theorem claim_C8 (amenities : List String) (cutoff : ℚ) :
    deduplicate_amenities_fuzzy amenities cutoff = dedupFuzzySpec cutoff amenities := by
  unfold deduplicate_amenities_fuzzy dedupFuzzySpec
  rw [dedupFuzzyAux_eq_foldl]

/-- **C6, counterexample.**  The claim asserts the merge step never
raises for missing nested keys, naming the `location` sub-mapping among
them.  But the pairwise merge accesses `existing["location"]` and
`hotel["location"]` with bracket syntax (utils.py lines 249-250,
280-283), not `.get`: merging two records sharing an id and lacking the
`location` key raises `KeyError`, both at the level of the pairwise
merge and of the whole driver. -/
theorem claim_C6_cex :
    mergeTwo "X" recC6 recC6 = .error "KeyError: location"
    ∧ merge_hotel_data [recC6, recC6] = .error "KeyError: location" := by
  refine ⟨rfl, rfl⟩

theorem pyStripList_eq_rdrop (l : List Char) :
    pyStripList l = List.rdropWhile isPySpace (List.dropWhile isPySpace l) := rfl

theorem pyStripList_idem (l : List Char) : pyStripList (pyStripList l) = pyStripList l := by
  rw [pyStripList_eq_rdrop, pyStripList_eq_rdrop]
  have h1 : List.dropWhile isPySpace
      (List.rdropWhile isPySpace (List.dropWhile isPySpace l))
      = List.rdropWhile isPySpace (List.dropWhile isPySpace l) := by
    rw [List.dropWhile_eq_self_iff]
    intro hl
    have hpre : List.rdropWhile isPySpace (List.dropWhile isPySpace l)
        <+: List.dropWhile isPySpace l := List.rdropWhile_prefix _ _
    have hlen : 0 < (List.dropWhile isPySpace l).length :=
      lt_of_lt_of_le hl hpre.length_le
    have hg : (List.rdropWhile isPySpace (List.dropWhile isPySpace l)).get ⟨0, hl⟩
        = (List.dropWhile isPySpace l).get ⟨0, hlen⟩ := by
      simp only [List.get_eq_getElem]
      exact hpre.getElem hl
    rw [hg]
    exact List.dropWhile_get_zero_not isPySpace l hlen
  rw [h1, List.rdropWhile_idempotent]

theorem pyStrip_idem (s : String) : pyStrip (pyStrip s) = pyStrip s :=
  congrArg String.mk (pyStripList_idem s.data)

theorem simTest_false_of_lt {cutoff : ℚ} {s1 s2 : String}
    (h : string_similarity s1 s2 < cutoff) : simTest cutoff s1 s2 = false := by
  rw [simTest_eq]
  exact decide_eq_false (not_le.mpr h)

/-- When no incoming string matches any representative (nor any earlier
incoming string), the deduplicator simply appends every trimmed string. -/
theorem dedupFuzzyAux_no_match (cutoff : ℚ) :
    ∀ (xs : List String) (reps : List (String × String)),
      (∀ x ∈ xs, ∀ r ∈ reps, simTest cutoff (normalize_amenity x) r.2 = false) →
      xs.Pairwise (fun a b => simTest cutoff (normalize_amenity b) (normalize_amenity a) = false) →
      dedupFuzzyAux cutoff reps xs = reps ++ xs.map (fun x => (pyStrip x, normalize_amenity x))
  | [], reps, _, _ => by simp [dedupFuzzyAux]
  | a :: rest, reps, hall, hpw => by
    have hnone : insertAmenity cutoff a (normalize_amenity a) reps = none := by
      rw [insertAmenity_eq_find]
      have hfind : List.findIdx? (fun r => simTest cutoff (normalize_amenity a) r.2) reps
          = none := by
        rw [List.findIdx?_eq_none_iff]
        intro r hr
        exact hall a (List.mem_cons_self a rest) r hr
      rw [hfind]
    rw [dedupFuzzyAux, hnone]
    rw [dedupFuzzyAux_no_match cutoff rest (reps ++ [(pyStrip a, normalize_amenity a)])
      (by
        intro x hx r hr
        rcases List.mem_append.mp hr with hr1 | hr2
        · exact hall x (List.mem_cons_of_mem a hx) r hr1
        · have : r = (pyStrip a, normalize_amenity a) := by simpa using hr2
          rw [this]
          exact (List.pairwise_cons.mp hpw).1 x hx)
      (List.pairwise_cons.mp hpw).2]
    simp

/-- The fuzzy deduplicator is the identity on any trimmed list whose
elements are pairwise dissimilar (similarity below the cutoff). -/
theorem dedup_fixed (cutoff : ℚ) (xs : List String)
    (htrim : ∀ x ∈ xs, pyStrip x = x)
    (hdis : xs.Pairwise
      (fun a b => string_similarity (normalize_amenity a) (normalize_amenity b) < cutoff)) :
    deduplicate_amenities_fuzzy xs cutoff = xs := by
  unfold deduplicate_amenities_fuzzy
  rw [dedupFuzzyAux_no_match cutoff xs [] (by simp)
    (hdis.imp (fun {a b} h => simTest_false_of_lt (by rw [string_similarity_comm]; exact h)))]
  simp only [List.nil_append, List.map_map]
  have hfun : ∀ x ∈ xs,
      (Prod.fst ∘ fun x => ((pyStrip x, normalize_amenity x) : String × String)) x = x :=
    fun x hx => htrim x hx
  rw [List.map_congr_left hfun]
  simp

theorem dedupFuzzyAux_trimmed (cutoff : ℚ) :
    ∀ (xs : List String) (reps : List (String × String)),
      (∀ r ∈ reps, pyStrip r.1 = r.1) →
      ∀ r ∈ dedupFuzzyAux cutoff reps xs, pyStrip r.1 = r.1
  | [], reps, hreps => hreps
  | a :: rest, reps, hreps => by
    rw [dedupFuzzyAux]
    cases hins : insertAmenity cutoff a (normalize_amenity a) reps with
    | some reps2 =>
      apply dedupFuzzyAux_trimmed cutoff rest reps2
      rw [insertAmenity_eq_find] at hins
      cases hfind : List.findIdx? (fun r => simTest cutoff (normalize_amenity a) r.2) reps with
      | none => rw [hfind] at hins; exact absurd hins (by simp)
      | some idx =>
        rw [hfind] at hins
        simp only [Option.some.injEq] at hins
        intro r hr
        rw [← hins] at hr
        by_cases hlt : (reps.getD idx ("", "")).1.length < (pyStrip a).length
        · rw [if_pos hlt] at hr
          rcases List.mem_or_eq_of_mem_set hr with hmem | heq
          · exact hreps r hmem
          · rw [heq]; exact pyStrip_idem a
        · rw [if_neg hlt] at hr
          exact hreps r hr
    | none =>
      apply dedupFuzzyAux_trimmed cutoff rest (reps ++ [(pyStrip a, normalize_amenity a)])
      intro r hr
      rcases List.mem_append.mp hr with hmem | hnew
      · exact hreps r hmem
      · have : r = (pyStrip a, normalize_amenity a) := by simpa using hnew
        rw [this]; exact pyStrip_idem a

/-- Every element of the fuzzy deduplicator's output is trimmed. -/
theorem dedup_output_trimmed (cutoff : ℚ) (amenities : List String) :
    ∀ x ∈ deduplicate_amenities_fuzzy amenities cutoff, pyStrip x = x := by
  intro x hx
  unfold deduplicate_amenities_fuzzy at hx
  rcases List.mem_map.mp hx with ⟨r, hr, hfst⟩
  rw [← hfst]
  exact dedupFuzzyAux_trimmed cutoff amenities [] (by simp) r hr

/-- **C4, counterexample.**  The claim asserts idempotence for every
input list at the default cutoff.  On `["abcd", "abcyx", "abcdx"]` the
first pass accepts `"abcd"`, accepts `"abcyx"` (similarity to `"abcd"`
is `3/5 < 0.8`), then groups `"abcdx"` with `"abcd"` (similarity
`4/5 ≥ 0.8`) and — being longer — replaces it, yielding
`["abcdx", "abcyx"]`, whose two survivors are now mutually similar
(`4/5 ≥ 0.8`).  A second pass therefore collapses them to `["abcdx"]`:
the deduplicator is not idempotent. -/
theorem claim_C4_cex :
    deduplicate_amenities_fuzzy
        (deduplicate_amenities_fuzzy ["abcd", "abcyx", "abcdx"] defaultCutoff) defaultCutoff
      ≠ deduplicate_amenities_fuzzy ["abcd", "abcyx", "abcdx"] defaultCutoff := by
  decide

/-- **C4, amended.**  The fuzzy deduplicator at the default cutoff is
idempotent on every input whose first-pass output has pairwise
dissimilar representatives (similarity `< 0.8` on normalized keys) —
in particular whenever no representative replacement creates a
mutually-similar pair, re-running it returns the output unchanged.
Only a replacement (a strictly longer incoming duplicate) can produce
mutually similar survivors, which a second pass then collapses
further. -/
theorem claim_C4 (amenities : List String)
    (h : (deduplicate_amenities_fuzzy amenities defaultCutoff).Pairwise
      (fun a b => string_similarity (normalize_amenity a) (normalize_amenity b) < defaultCutoff)) :
    deduplicate_amenities_fuzzy (deduplicate_amenities_fuzzy amenities defaultCutoff) defaultCutoff
      = deduplicate_amenities_fuzzy amenities defaultCutoff :=
  dedup_fixed defaultCutoff _ (dedup_output_trimmed defaultCutoff amenities) h

theorem claim_C4_witness :
    (deduplicate_amenities_fuzzy ["Pool", "Gym"] defaultCutoff).Pairwise
      (fun a b => string_similarity (normalize_amenity a) (normalize_amenity b) < defaultCutoff)
    ∧ deduplicate_amenities_fuzzy
        (deduplicate_amenities_fuzzy ["Pool", "Gym"] defaultCutoff) defaultCutoff
      = deduplicate_amenities_fuzzy ["Pool", "Gym"] defaultCutoff := by
  have hsim : string_similarity (normalize_amenity "Pool") (normalize_amenity "Gym")
      < defaultCutoff := by
    have h0 : simTest defaultCutoff (normalize_amenity "Pool") (normalize_amenity "Gym")
        = false := by decide
    rw [simTest_eq] at h0
    exact not_le.mp (of_decide_eq_false h0)
  have hpw : (deduplicate_amenities_fuzzy ["Pool", "Gym"] defaultCutoff).Pairwise
      (fun a b => string_similarity (normalize_amenity a) (normalize_amenity b) < defaultCutoff) := by
    have heq : deduplicate_amenities_fuzzy ["Pool", "Gym"] defaultCutoff = ["Pool", "Gym"] := rfl
    rw [heq]
    refine List.Pairwise.cons ?_ (List.pairwise_singleton _ _)
    intro b hb
    have hbeq : b = "Gym" := by simpa using hb
    rw [hbeq]
    exact hsim
  exact ⟨hpw, claim_C4 ["Pool", "Gym"] hpw⟩

theorem locationField_ok {α : Type} (exVal : Option α) (truthy : Option α → Bool)
    (hotel : Hotel) (f : HLocation → Option α) (hl : HLocation)
    (hh : hotel.location = some hl) :
    locationField exVal truthy hotel f = .ok (if truthy exVal then exVal else f hl) := by
  unfold locationField
  by_cases ht : truthy exVal
  · simp [ht]
  · simp [ht, getLocation, hh, Except.map]

/-- Evaluation of the pairwise merge when both records carry a
`location` sub-mapping: it succeeds and produces `mergeResult`. -/
theorem mergeTwo_ok (hotel_id : String) (existing hotel : Hotel) (el hl : HLocation)
    (he : existing.location = some el) (hh : hotel.location = some hl) :
    mergeTwo hotel_id existing hotel = .ok (mergeResult hotel_id existing hotel el hl) := by
  have hbind : ∀ {α β : Type} (a : α) (f : α → Except String β), (Except.ok a >>= f) = f a :=
    fun a f => rfl
  rw [mergeTwo]
  simp only [getLocation, he]
  rw [hbind]
  rw [locationField_ok _ _ _ _ hl hh, hbind]
  rw [locationField_ok _ _ _ _ hl hh, hbind]
  rw [locationField_ok _ _ _ _ hl hh, hbind]
  rw [locationField_ok _ _ _ _ hl hh, hbind]
  rw [locationField_ok _ _ _ _ hl hh, hbind]
  rw [mergeResult, mergeShape]
  rfl

theorem mergeTwo_ok_shape (hotel_id : String) (existing hotel : Hotel) (m : Hotel)
    (hm : mergeTwo hotel_id existing hotel = .ok m) :
    ∃ ml : HLocation, m = mergeShape hotel_id existing hotel ml := by
  have hbind : ∀ {α β : Type} (a : α) (f : α → Except String β), (Except.ok a >>= f) = f a :=
    fun a f => rfl
  have hberr : ∀ {α β : Type} (s : String) (f : α → Except String β),
      ((Except.error s : Except String α) >>= f) = Except.error s := fun s f => rfl
  cases hel : existing.location with
  | none =>
    rw [mergeTwo, show getLocation existing = .error "KeyError: location" from
      by rw [getLocation, hel], hberr] at hm
    exact absurd hm (by simp)
  | some el =>
    rw [mergeTwo, show getLocation existing = .ok el from by rw [getLocation, hel], hbind] at hm
    cases hA : locationField el.address truthyS hotel (fun l => l.address) with
    | error err => rw [hA, hberr] at hm; exact absurd hm (by simp)
    | ok ad =>
      rw [hA, hbind] at hm
      cases hB : locationField el.country truthyS hotel (fun l => l.country) with
      | error err => rw [hB, hberr] at hm; exact absurd hm (by simp)
      | ok co =>
        rw [hB, hbind] at hm
        cases hC : locationField el.lat truthyI hotel (fun l => l.lat) with
        | error err => rw [hC, hberr] at hm; exact absurd hm (by simp)
        | ok la =>
          rw [hC, hbind] at hm
          cases hD : locationField el.lng truthyI hotel (fun l => l.lng) with
          | error err => rw [hD, hberr] at hm; exact absurd hm (by simp)
          | ok ln =>
            rw [hD, hbind] at hm
            cases hE : locationField el.city truthyS hotel (fun l => l.city) with
            | error err => rw [hE, hberr] at hm; exact absurd hm (by simp)
            | ok ci =>
              rw [hE, hbind] at hm
              have hm2 : Except.ok (mergeShape hotel_id existing hotel ⟨la, ln, ad, ci, co⟩)
                  = Except.ok m := hm
              exact ⟨⟨la, ln, ad, ci, co⟩, (Except.ok.inj hm2).symm⟩

theorem truthyS_pyOrS (a b : Option String) :
    truthyS (pyOrS a b) = (truthyS a || truthyS b) := by
  unfold pyOrS
  by_cases h : truthyS a <;> simp [h]

theorem truthyI_pyOrI (a b : Option Int) :
    truthyI (pyOrI a b) = (truthyI a || truthyI b) := by
  unfold pyOrI
  by_cases h : truthyI a <;> simp [h]

theorem isPySpace_space : isPySpace ' ' = true := rfl

theorem mem_splitSentencesAux :
    ∀ (rest cur : List Char) (pP sk : Bool) (c : Char),
      isPySpace c = false → (sk = true → cur = []) → (c ∈ rest ∨ c ∈ cur) →
      ∃ f ∈ splitSentencesAux rest cur pP sk, c ∈ f
  | [], cur, pP, sk, c, hc, hsk, hmem => by
    rw [splitSentencesAux]
    rcases hmem with h | h
    · exact absurd h (List.not_mem_nil c)
    · exact ⟨cur.reverse, List.mem_singleton_self _, List.mem_reverse.mpr h⟩
  | c' :: rest, cur, pP, sk, c, hc, hsk, hmem => by
    have hcs : c ≠ ' ' := by
      intro h
      rw [h] at hc
      exact absurd hc (by simp [isPySpace_space])
    rw [splitSentencesAux]
    split_ifs with h1 h2 h3
    · -- skipping, c' = ' '
      have hcur : cur = [] := hsk h1
      refine mem_splitSentencesAux rest cur false true c hc (fun _ => hcur) (Or.inl ?_)
      rcases hmem with h | h
      · rcases List.mem_cons.mp h with rfl | h
        · exact absurd h2 hcs
        · exact h
      · rw [hcur] at h
        exact absurd h (List.not_mem_nil c)
    · -- skipping, c' not a space: fragment restarts at c'
      have hcur : cur = [] := hsk h1
      refine mem_splitSentencesAux rest [c'] (isPunct c') false c hc (by simp) ?_
      rcases hmem with h | h
      · rcases List.mem_cons.mp h with rfl | h
        · exact Or.inr (List.mem_singleton_self c)
        · exact Or.inl h
      · rw [hcur] at h
        exact absurd h (List.not_mem_nil c)
    · -- separator found: current fragment is emitted
      have hc' : c' = ' ' := by
        simp only [Bool.and_eq_true, decide_eq_true_eq] at h3
        exact h3.2
      rcases hmem with h | h
      · rcases List.mem_cons.mp h with rfl | h
        · rw [hc'] at hcs; exact absurd rfl hcs
        · obtain ⟨f, hf, hcf⟩ :=
            mem_splitSentencesAux rest [] false true c hc (fun _ => rfl) (Or.inl h)
          exact ⟨f, List.mem_cons_of_mem _ hf, hcf⟩
      · exact ⟨cur.reverse, List.mem_cons_self _ _, List.mem_reverse.mpr h⟩
    · -- ordinary character: goes into the current fragment
      refine mem_splitSentencesAux rest (c' :: cur) (isPunct c') false c hc (by simp) ?_
      rcases hmem with h | h
      · rcases List.mem_cons.mp h with rfl | h
        · exact Or.inr (List.mem_cons_self c cur)
        · exact Or.inl h
      · exact Or.inr (List.mem_cons_of_mem c' h)

theorem mem_dropWhile {p : Char → Bool} {c : Char} (hc : p c = false) :
    ∀ l : List Char, c ∈ l → c ∈ l.dropWhile p
  | a :: l, hmem => by
    by_cases ha : p a
    · rw [List.dropWhile_cons_of_pos ha]
      rcases List.mem_cons.mp hmem with rfl | h
      · rw [ha] at hc; exact absurd hc (by simp)
      · exact mem_dropWhile hc l h
    · rw [List.dropWhile_cons_of_neg ha]
      exact hmem

theorem mem_pyStripList {c : Char} (hc : isPySpace c = false) {l : List Char} (hmem : c ∈ l) :
    c ∈ pyStripList l := by
  unfold pyStripList
  rw [List.mem_reverse]
  apply mem_dropWhile hc
  rw [List.mem_reverse]
  exact mem_dropWhile hc l hmem

theorem pyCapitalizeList_ne_nil {l : List Char} (h : l ≠ []) : pyCapitalizeList l ≠ [] := by
  cases l with
  | nil => exact absurd rfl h
  | cons a l => simp [pyCapitalizeList]

theorem joinSpace_ne_nil : ∀ (L : List (List Char)) (f : List Char),
    f ∈ L → f ≠ [] → joinSpace L ≠ []
  | [x], f, hf, hne => by
    have : f = x := by simpa using hf
    rw [joinSpace]
    rw [← this]
    exact hne
  | x :: y :: t, f, hf, hne => by
    show x ++ ' ' :: joinSpace (y :: t) ≠ []
    simp

/-- A string containing a non-whitespace character is sentence-cased to
a non-empty string. -/
theorem capitalize_first_letter_ne_empty {text : String} (h : hasNonWs text = true) :
    capitalize_first_letter text ≠ "" := by
  unfold hasNonWs at h
  rw [List.any_eq_true] at h
  obtain ⟨c, hc, hcs⟩ := h
  rw [Bool.not_eq_true'] at hcs
  obtain ⟨f, hf, hcf⟩ :=
    mem_splitSentencesAux text.data [] false false c hcs (by simp) (Or.inl hc)
  have hfne : f ≠ [] := List.ne_nil_of_mem hcf
  have hmemf : f ∈ (splitSentencesAux text.data [] false false).filter (· ≠ []) :=
    List.mem_filter.mpr ⟨hf, by simp [hfne]⟩
  have hmap : pyCapitalizeList (pyStripList f) ∈
      ((splitSentencesAux text.data [] false false).filter (· ≠ [])).map
        (fun s => pyCapitalizeList (pyStripList s)) :=
    List.mem_map_of_mem _ hmemf
  have hstrip : pyStripList f ≠ [] := List.ne_nil_of_mem (mem_pyStripList hcs hcf)
  have hcap : pyCapitalizeList (pyStripList f) ≠ [] := pyCapitalizeList_ne_nil hstrip
  have hjoin := joinSpace_ne_nil _ _ hmap hcap
  unfold capitalize_first_letter
  intro heq
  exact hjoin (congrArg String.data heq)

theorem mergeDescription_cases (ed nd : String) :
    mergeDescription ed nd = ed ∨ mergeDescription ed nd = nd := by
  unfold mergeDescription
  split_ifs <;> simp

theorem mergeDescription_ne_empty {ed nd : String} (h : ed ≠ "" ∨ nd ≠ "") :
    mergeDescription ed nd ≠ "" := by
  by_cases hed : ed = ""
  · by_cases hnd : nd = ""
    · rcases h with h | h <;> contradiction
    · simp [mergeDescription, hed, hnd]
  · by_cases hnd : nd = ""
    · simp [mergeDescription, hed, hnd]
    · simp only [mergeDescription, hed, hnd]
      split_ifs <;> simp [hed, hnd]

/-- **C2, amended.**  For every pairwise merge of two records sharing
an id (each carrying a `location` sub-mapping, as merging requires) in
which neither description is a whitespace-only non-empty string: for
every scalar field, if at least one side's value is *truthy* in
Python's sense (non-null, non-empty, non-zero), the merged value is
truthy — for the description, non-empty after sentence-casing.  The
counterexample `claim_C2_cex` forces "non-empty/non-null" to be
strengthened to "truthy": a latitude of `0` (and likewise a
whitespace-only description, which sentence-casing collapses to empty)
is non-null but loses to `or`-coalescing. -/
theorem claim_C2 (hotel_id : String) (existing hotel : Hotel) (el hl : HLocation) (m : Hotel)
    (he : existing.location = some el) (hh : hotel.location = some hl)
    (hde : existing.description.getD "" = "" ∨ hasNonWs (existing.description.getD ""))
    (hdh : hotel.description.getD "" = "" ∨ hasNonWs (hotel.description.getD ""))
    (hm : mergeTwo hotel_id existing hotel = .ok m) :
    ((truthyI existing.destination_id ∨ truthyI hotel.destination_id) →
      truthyI m.destination_id)
    ∧ ((truthyS existing.name ∨ truthyS hotel.name) → truthyS m.name)
    ∧ ((existing.description.getD "" ≠ "" ∨ hotel.description.getD "" ≠ "") →
      m.description.getD "" ≠ "")
    ∧ ∃ ml, m.location = some ml
      ∧ ((truthyI el.lat ∨ truthyI hl.lat) → truthyI ml.lat)
      ∧ ((truthyI el.lng ∨ truthyI hl.lng) → truthyI ml.lng)
      ∧ ((truthyS el.address ∨ truthyS hl.address) → truthyS ml.address)
      ∧ ((truthyS el.city ∨ truthyS hl.city) → truthyS ml.city)
      ∧ ((truthyS el.country ∨ truthyS hl.country) → truthyS ml.country) := by
  rw [mergeTwo_ok hotel_id existing hotel el hl he hh] at hm
  have hm2 : mergeResult hotel_id existing hotel el hl = m := Except.ok.inj hm
  subst hm2
  refine ⟨?_, ?_, ?_, ⟨_, rfl, ?_, ?_, ?_, ?_, ?_⟩⟩
  · intro hor
    show truthyI (pyOrI existing.destination_id hotel.destination_id)
    rw [truthyI_pyOrI, Bool.or_eq_true]
    rcases hor with h | h
    · exact Or.inl h
    · exact Or.inr h
  · intro hor
    show truthyS (pyOrS existing.name hotel.name)
    rw [truthyS_pyOrS, Bool.or_eq_true]
    rcases hor with h | h
    · exact Or.inl h
    · exact Or.inr h
  · intro hor
    show (some (capitalize_first_letter (mergeDescription (existing.description.getD "")
      (hotel.description.getD "")))).getD "" ≠ ""
    rw [Option.getD_some]
    apply capitalize_first_letter_ne_empty
    have hmd := mergeDescription_ne_empty hor
    rcases mergeDescription_cases (existing.description.getD "") (hotel.description.getD "")
      with hcase | hcase
    · rw [hcase]
      rcases hde with h | h
      · rw [hcase] at hmd; exact absurd h hmd
      · exact h
    · rw [hcase]
      rcases hdh with h | h
      · rw [hcase] at hmd; exact absurd h hmd
      · exact h
  · intro hor
    show truthyI (pyOrI el.lat hl.lat)
    rw [truthyI_pyOrI, Bool.or_eq_true]
    rcases hor with h | h
    · exact Or.inl h
    · exact Or.inr h
  · intro hor
    show truthyI (pyOrI el.lng hl.lng)
    rw [truthyI_pyOrI, Bool.or_eq_true]
    rcases hor with h | h
    · exact Or.inl h
    · exact Or.inr h
  · intro hor
    show truthyS (pyOrS el.address hl.address)
    rw [truthyS_pyOrS, Bool.or_eq_true]
    rcases hor with h | h
    · exact Or.inl h
    · exact Or.inr h
  · intro hor
    show truthyS (pyOrS el.city hl.city)
    rw [truthyS_pyOrS, Bool.or_eq_true]
    rcases hor with h | h
    · exact Or.inl h
    · exact Or.inr h
  · intro hor
    show truthyS (pyOrS el.country hl.country)
    rw [truthyS_pyOrS, Bool.or_eq_true]
    rcases hor with h | h
    · exact Or.inl h
    · exact Or.inr h

theorem claim_C2_witness :
    ∃ m, mergeTwo "X" recC2wA recC2wB = .ok m
      ∧ truthyI m.destination_id ∧ truthyS m.name ∧ m.description.getD "" ≠ ""
      ∧ ∃ ml, m.location = some ml ∧ truthyI ml.lat ∧ truthyI ml.lng
        ∧ truthyS ml.address ∧ truthyS ml.city ∧ truthyS ml.country := by
  have hm : mergeTwo "X" recC2wA recC2wB = .ok (mergeResult "X" recC2wA recC2wB
      ⟨some 1, none, some "8 Sentosa", none, none⟩
      ⟨none, some 2, none, some "Singapore", some "SG"⟩) :=
    mergeTwo_ok "X" recC2wA recC2wB _ _ rfl rfl
  obtain ⟨h1, h2, h3, ml, hml, h4, h5, h6, h7, h8⟩ :=
    claim_C2 "X" recC2wA recC2wB
      ⟨some 1, none, some "8 Sentosa", none, none⟩
      ⟨none, some 2, none, some "Singapore", some "SG"⟩ _
      rfl rfl (Or.inr (by decide)) (Or.inl rfl) hm
  exact ⟨_, hm, h1 (Or.inl (by decide)), h2 (Or.inl (by decide)), h3 (Or.inl (by decide)),
    ml, hml, h4 (Or.inl (by decide)), h5 (Or.inr (by decide)), h6 (Or.inl (by decide)),
    h7 (Or.inr (by decide)), h8 (Or.inr (by decide))⟩

theorem dedupImagesAux_nodup : ∀ (items seen : List Image),
    (dedupImagesAux seen items).Nodup ∧ ∀ i ∈ dedupImagesAux seen items, i ∉ seen
  | [], seen => by simp [dedupImagesAux]
  | i :: rest, seen => by
    rw [dedupImagesAux]
    by_cases hmem : i ∈ seen
    · rw [if_pos hmem]
      exact dedupImagesAux_nodup rest seen
    · rw [if_neg hmem]
      obtain ⟨hnd, hnotin⟩ := dedupImagesAux_nodup rest (i :: seen)
      refine ⟨List.nodup_cons.mpr ⟨?_, hnd⟩, ?_⟩
      · intro hin
        exact hnotin i hin (List.mem_cons_self i seen)
      · intro j hj
        rcases List.mem_cons.mp hj with rfl | hj2
        · exact hmem
        · intro hjseen
          exact hnotin j hj2 (List.mem_cons_of_mem i hjseen)

theorem deduplicate_list_images_nodup (items : List Image) :
    (deduplicate_list_images items).Nodup :=
  (dedupImagesAux_nodup items []).1

/-- **C5, amended.**  In every record produced by at least one pairwise
merge step, the three image lists exist and contain no two structurally
equal entries, and the amenity lists and booking-condition list are
exactly the fuzzy deduplicator's output on the concatenated inputs.
The original claim fails in two ways: a record whose id is contributed
by a single raw record is returned as-is, with no deduplication at all
(`claim_C5_cex`), and even the fuzzy deduplicator's own output can
retain two entries the similarity rule would judge duplicates (see
`claim_C4_cex`), so only structural-equality freedom holds for image
lists. -/
theorem claim_C5 (hotel_id : String) (existing hotel : Hotel) (m : Hotel)
    (hm : mergeTwo hotel_id existing hotel = .ok m) :
    ∃ rimgs simgs aimgs,
      m.images = some ⟨some rimgs, some simgs, some aimgs⟩
      ∧ rimgs.Nodup ∧ simgs.Nodup ∧ aimgs.Nodup
      ∧ m.amenities = some ⟨some (deduplicate_amenities_fuzzy
          ((existing.amenities.getD emptyAmenities).general.getD []
            ++ (hotel.amenities.getD emptyAmenities).general.getD []) defaultCutoff),
        some (deduplicate_amenities_fuzzy
          ((existing.amenities.getD emptyAmenities).room.getD []
            ++ (hotel.amenities.getD emptyAmenities).room.getD []) defaultCutoff)⟩
      ∧ m.booking_conditions = some (deduplicate_amenities_fuzzy
          (existing.booking_conditions.getD [] ++ hotel.booking_conditions.getD [])
          defaultCutoff) := by
  obtain ⟨ml, rfl⟩ := mergeTwo_ok_shape hotel_id existing hotel m hm
  exact ⟨_, _, _, rfl, deduplicate_list_images_nodup _, deduplicate_list_images_nodup _,
    deduplicate_list_images_nodup _, rfl, rfl⟩

theorem claim_C5_witness :
    ∃ m, mergeTwo "X" recC5w1 recC5w2 = .ok m ∧
      ∃ rimgs simgs aimgs, m.images = some ⟨some rimgs, some simgs, some aimgs⟩
        ∧ rimgs.Nodup ∧ simgs.Nodup ∧ aimgs.Nodup := by
  have hm : mergeTwo "X" recC5w1 recC5w2 = .ok (mergeResult "X" recC5w1 recC5w2
      emptyLocation emptyLocation) := mergeTwo_ok "X" recC5w1 recC5w2 _ _ rfl rfl
  obtain ⟨rimgs, simgs, aimgs, himg, h1, h2, h3, _, _⟩ :=
    claim_C5 "X" recC5w1 recC5w2 _ hm
  exact ⟨_, hm, rimgs, simgs, aimgs, himg, h1, h2, h3⟩

/-- **C6, amended.**  The pairwise merge is total for every pair of
records that each contain a `location` sub-mapping (possibly empty):
every *other* missing nested key — `description`, `destination_id`,
`name`, `amenities` and its `general`/`room` lists, `images` and its
category lists, `booking_conditions` — defaults to empty string, null
or empty sequence, and the merge completes with the fully-defaulted
`mergeResult`.  The exception, forced by `claim_C6_cex`, is the
`location` key itself: it is accessed with `dict[...]` and raises
`KeyError` when absent. -/
theorem claim_C6 (hotel_id : String) (existing hotel : Hotel) (el hl : HLocation)
    (he : existing.location = some el) (hh : hotel.location = some hl) :
    mergeTwo hotel_id existing hotel = .ok (mergeResult hotel_id existing hotel el hl) :=
  mergeTwo_ok hotel_id existing hotel el hl he hh

theorem claim_C6_witness :
    mergeTwo "X" recC6w1 recC6w2
      = .ok (mergeResult "X" recC6w1 recC6w2 emptyLocation emptyLocation) :=
  claim_C6 "X" recC6w1 recC6w2 emptyLocation emptyLocation rfl rfl

theorem standardizeCategory_eq_filterMap :
    ∀ items : List ImgItem, standardizeCategory items = items.filterMap imageItemSpec
  | [] => rfl
  | .scalar :: rest => by
    rw [standardizeCategory, List.filterMap_cons]
    simp only [imageItemSpec]
    exact standardizeCategory_eq_filterMap rest
  | .obj l u d c :: rest => by
    rw [List.filterMap_cons]
    have hrec := standardizeCategory_eq_filterMap rest
    cases hlu : pyOrS l u with
    | none =>
      have h1 : standardizeCategory (ImgItem.obj l u d c :: rest)
          = standardizeCategory rest := by
        rw [standardizeCategory, hlu]
      have h2 : imageItemSpec (.obj l u d c) = none := by
        simp [imageItemSpec, hlu, truthyS]
      rw [h1, h2, hrec]
    | some link =>
      by_cases hempty : link = ""
      · have h1 : standardizeCategory (ImgItem.obj l u d c :: rest)
            = standardizeCategory rest := by
          rw [standardizeCategory, hlu]
          simp [hempty]
        have h2 : imageItemSpec (.obj l u d c) = none := by
          simp [imageItemSpec, hlu, truthyS, hempty]
        rw [h1, h2, hrec]
      · have h1 : standardizeCategory (ImgItem.obj l u d c :: rest)
            = ⟨pyStrip link,
                capitalize_first_letter (pyStrip ((pyOrS d (pyOrS c (some ""))).getD ""))⟩
              :: standardizeCategory rest := by
          rw [standardizeCategory, hlu]
          simp [hempty]
        have h2 : imageItemSpec (.obj l u d c) = some ⟨pyStrip link,
            capitalize_first_letter (pyStrip ((pyOrS d (pyOrS c (some ""))).getD ""))⟩ := by
          simp [imageItemSpec, hlu, truthyS, hempty]
        rw [h1, h2, hrec]

/-- **C10.**  For every input value — a non-dict value, a dict with
missing categories, category lists containing non-dict items, and items
lacking `link`/`description` keys — `standardize_images` is total (no
exception is raised: the embedding is a total function) and returns a
record with exactly the three category lists `rooms`, `site`,
`amenities`, each equal, in input order, to the per-item rule
`imageItemSpec`: an output `{link, description}` item exists exactly
for the input dict items whose link (read from `link` or `url`) is
truthy; the link is stripped of surrounding whitespace and the
description (read from `description` or `caption`, defaulting to empty)
is stripped and sentence-cased; all other items are dropped. -/
theorem claim_C10 (images : ImagesInput) :
    standardize_images images = (match images with
      | .notDict => ⟨[], [], []⟩
      | .obj r s a => ⟨(r.getD []).filterMap imageItemSpec,
          (s.getD []).filterMap imageItemSpec, (a.getD []).filterMap imageItemSpec⟩) := by
  cases images with
  | notDict => rfl
  | obj r s a =>
    simp only [standardize_images, standardizeCategory_eq_filterMap]

theorem assocFind_eq_none_iff : ∀ (acc : List (String × Hotel)) (k : String),
    assocFind acc k = none ↔ k ∉ acc.map Prod.fst
  | [], k => by simp [assocFind]
  | (k2, h) :: rest, k => by
    rw [assocFind]
    by_cases he : k2 = k
    · subst he; simp
    · simp only [if_neg he, List.map_cons, List.mem_cons]
      rw [assocFind_eq_none_iff rest k]
      constructor
      · intro h1 h2
        rcases h2 with h2 | h2
        · exact he h2.symm
        · exact h1 h2
      · intro h1 h2
        exact h1 (Or.inr h2)

theorem assocSet_map_fst : ∀ (acc : List (String × Hotel)) (k : String) (v : Hotel),
    k ∈ acc.map Prod.fst → (assocSet acc k v).map Prod.fst = acc.map Prod.fst
  | [], k, v, h => by simp at h
  | (k2, h2) :: rest, k, v, hmem => by
    rw [assocSet]
    by_cases he : k2 = k
    · subst he; simp
    · rw [if_neg he]
      simp only [List.map_cons]
      congr 1
      apply assocSet_map_fst rest k v
      rcases List.mem_cons.mp (by simpa only [List.map_cons] using hmem) with h | h
      · exact absurd h.symm he
      · exact h

theorem mem_assocSet : ∀ (acc : List (String × Hotel)) (k : String) (v : Hotel)
    (p : String × Hotel), p ∈ assocSet acc k v → p = (k, v) ∨ p ∈ acc
  | [], k, v, p, h => Or.inl (by simpa [assocSet] using h)
  | (k2, h2) :: rest, k, v, p, hmem => by
    rw [assocSet] at hmem
    by_cases he : k2 = k
    · rw [if_pos he] at hmem
      rcases List.mem_cons.mp hmem with rfl | h
      · exact Or.inl rfl
      · exact Or.inr (List.mem_cons_of_mem _ h)
    · rw [if_neg he] at hmem
      rcases List.mem_cons.mp hmem with rfl | h
      · exact Or.inr (List.mem_cons_self _ _)
      · rcases mem_assocSet rest k v p h with h1 | h1
        · exact Or.inl h1
        · exact Or.inr (List.mem_cons_of_mem _ h1)

theorem keepFirstAux_congr : ∀ (l s1 s2 : List String), (∀ x, x ∈ s1 ↔ x ∈ s2) →
    keepFirstAux s1 l = keepFirstAux s2 l
  | [], _, _, _ => rfl
  | x :: l, s1, s2, h => by
    rw [keepFirstAux, keepFirstAux]
    by_cases hx : x ∈ s1
    · rw [if_pos hx, if_pos ((h x).mp hx)]
      exact keepFirstAux_congr l s1 s2 h
    · rw [if_neg hx, if_neg (fun hc => hx ((h x).mpr hc))]
      rw [keepFirstAux_congr l (x :: s1) (x :: s2) (by intro y; simp [h y])]

theorem keepFirstAux_mem : ∀ (l seen : List String) (x : String),
    x ∈ keepFirstAux seen l ↔ (x ∈ l ∧ x ∉ seen)
  | [], seen, x => by simp [keepFirstAux]
  | a :: l, seen, x => by
    rw [keepFirstAux]
    by_cases ha : a ∈ seen
    · rw [if_pos ha, keepFirstAux_mem l seen x]
      constructor
      · rintro ⟨h1, h2⟩
        exact ⟨List.mem_cons_of_mem a h1, h2⟩
      · rintro ⟨h1, h2⟩
        rcases List.mem_cons.mp h1 with rfl | h1
        · exact absurd ha h2
        · exact ⟨h1, h2⟩
    · rw [if_neg ha]
      constructor
      · intro hx
        rcases List.mem_cons.mp hx with rfl | hx2
        · exact ⟨List.mem_cons_self x l, ha⟩
        · obtain ⟨h1, h2⟩ := (keepFirstAux_mem l (a :: seen) x).mp hx2
          exact ⟨List.mem_cons_of_mem a h1, fun hc => h2 (List.mem_cons_of_mem a hc)⟩
      · rintro ⟨h1, h2⟩
        rcases List.mem_cons.mp h1 with rfl | h1
        · exact List.mem_cons_self x _
        · by_cases hxa : x = a
          · subst hxa
            exact List.mem_cons_self x _
          · refine List.mem_cons_of_mem a ((keepFirstAux_mem l (a :: seen) x).mpr ⟨h1, ?_⟩)
            intro hc
            rcases List.mem_cons.mp hc with h | h
            · exact hxa h
            · exact h2 h

theorem keepFirstAux_nodup : ∀ (l seen : List String), (keepFirstAux seen l).Nodup
  | [], seen => List.nodup_nil
  | a :: l, seen => by
    rw [keepFirstAux]
    by_cases ha : a ∈ seen
    · rw [if_pos ha]
      exact keepFirstAux_nodup l seen
    · rw [if_neg ha]
      refine List.nodup_cons.mpr ⟨?_, keepFirstAux_nodup l (a :: seen)⟩
      intro hc
      exact ((keepFirstAux_mem l (a :: seen) a).mp hc).2 (List.mem_cons_self a seen)

theorem mergeTwo_ok_id (hotel_id : String) (existing hotel : Hotel) (m : Hotel)
    (hm : mergeTwo hotel_id existing hotel = .ok m) : m.id = some hotel_id := by
  obtain ⟨ml, rfl⟩ := mergeTwo_ok_shape hotel_id existing hotel m hm
  rfl

/-- Invariant of the aggregation loop: every accumulator entry's record
carries its own key as id, and the accumulator keys are the initial keys
followed by the first occurrences of the incoming usable ids. -/
theorem mergeFold_spec : ∀ (hotels : List Hotel) (acc res : List (String × Hotel)),
    (∀ p ∈ acc, p.2.id = some p.1) →
    mergeFold acc hotels = .ok res →
    (∀ p ∈ res, p.2.id = some p.1)
    ∧ res.map Prod.fst
      = acc.map Prod.fst ++ keepFirstAux (acc.map Prod.fst) (hotels.filterMap validId)
  | [], acc, res, hinv, hok => by
    have hres : acc = res := Except.ok.inj hok
    subst hres
    exact ⟨hinv, by simp [keepFirstAux]⟩
  | hotel :: rest, acc, res, hinv, hok => by
    cases hid : hotel.id with
    | none =>
      simp only [mergeFold, hid] at hok
      have hval : validId hotel = none := by simp [validId, hid]
      rw [List.filterMap_cons, hval]
      exact mergeFold_spec rest acc res hinv hok
    | some i =>
      by_cases hie : i = ""
      · simp only [mergeFold, hid, if_pos hie] at hok
        have hval : validId hotel = none := by simp [validId, hid, hie]
        rw [List.filterMap_cons, hval]
        exact mergeFold_spec rest acc res hinv hok
      · have hval : validId hotel = some i := by simp [validId, hid, hie]
        rw [List.filterMap_cons, hval]
        simp only [mergeFold, hid, if_neg hie] at hok
        cases hfind : assocFind acc i with
        | none =>
          simp only [hfind] at hok
          have hnotin : i ∉ acc.map Prod.fst := (assocFind_eq_none_iff acc i).mp hfind
          have hinv2 : ∀ p ∈ acc ++ [(i, hotel)], p.2.id = some p.1 := by
            intro p hp
            rcases List.mem_append.mp hp with h | h
            · exact hinv p h
            · have hpe : p = (i, hotel) := by simpa using h
              rw [hpe]
              exact hid
          obtain ⟨hres1, hres2⟩ := mergeFold_spec rest (acc ++ [(i, hotel)]) res hinv2 hok
          refine ⟨hres1, ?_⟩
          rw [hres2, List.map_append]
          rw [keepFirstAux, if_neg hnotin]
          rw [keepFirstAux_congr (rest.filterMap validId)
            ((acc.map Prod.fst) ++ (List.map Prod.fst [(i, hotel)])) (i :: acc.map Prod.fst)
            (by intro y; simp [or_comm])]
          simp [List.append_assoc]
        | some ex =>
          simp only [hfind] at hok
          cases hmg : mergeTwo i ex hotel with
          | error err =>
            rw [hmg] at hok
            exact absurd hok (by simp [Bind.bind, Except.bind])
          | ok m =>
            rw [hmg] at hok
            have hok2 : mergeFold (assocSet acc i m) rest = Except.ok res := hok
            have hmem : i ∈ acc.map Prod.fst := by
              by_contra hc
              rw [← assocFind_eq_none_iff acc i] at hc
              rw [hfind] at hc
              exact absurd hc (by simp)
            have hinv2 : ∀ p ∈ assocSet acc i m, p.2.id = some p.1 := by
              intro p hp
              rcases mem_assocSet acc i m p hp with h | h
              · rw [h]
                exact mergeTwo_ok_id i ex hotel m hmg
              · exact hinv p h
            obtain ⟨hres1, hres2⟩ := mergeFold_spec rest (assocSet acc i m) res hinv2 hok2
            refine ⟨hres1, ?_⟩
            rw [hres2, assocSet_map_fst acc i m hmem]
            rw [keepFirstAux, if_pos hmem]

/-- Records with a missing or empty id are skipped: filtering them out
beforehand does not change the aggregation at all. -/
theorem mergeFold_filter : ∀ (hotels : List Hotel) (acc : List (String × Hotel)),
    mergeFold acc (hotels.filter (fun h => truthyS h.id)) = mergeFold acc hotels
  | [], acc => rfl
  | hotel :: rest, acc => by
    cases hid : hotel.id with
    | none =>
      have hfalse : truthyS hotel.id = false := by rw [hid]; rfl
      rw [List.filter_cons, hfalse]
      simp only [Bool.false_eq_true, if_false]
      rw [mergeFold_filter rest acc]
      simp only [mergeFold, hid]
    | some i =>
      by_cases hie : i = ""
      · have hfalse : truthyS hotel.id = false := by rw [hid, hie]; rfl
        rw [List.filter_cons, hfalse]
        simp only [Bool.false_eq_true, if_false]
        rw [mergeFold_filter rest acc]
        simp only [mergeFold, hid, if_pos hie]
      · have htrue : truthyS hotel.id = true := by rw [hid]; simp [truthyS, hie]
        rw [List.filter_cons, htrue]
        simp only [if_true]
        simp only [mergeFold, hid, if_neg hie]
        cases hfind : assocFind acc i with
        | none =>
          simp only [hfind]
          exact mergeFold_filter rest (acc ++ [(i, hotel)])
        | some ex =>
          simp only [hfind]
          cases hmg : mergeTwo i ex hotel with
          | error err => rfl
          | ok m =>
            have hbind : ∀ {α β : Type} (a : α) (f : α → Except String β),
                (Except.ok a >>= f) = f a := fun a f => rfl
            rw [hbind, hbind]
            exact mergeFold_filter rest (assocSet acc i m)

/-- **C1.**  For every input list, whenever `merge_hotel_data`
returns, its output records' ids are exactly the distinct non-empty
input ids in first-occurrence order, each wrapped in `some`
(equivalently: exactly one output record per distinct non-empty input
id, every output id is the id of at least one input record, and no two
output records share an id — `keepFirstAux [] _` is proved `Nodup` and
to have the same members as the list of usable input ids); moreover
records whose id is missing or empty have no effect: filtering them out
first yields the identical output. -/
theorem claim_C1 (hotels : List Hotel) (out : List Hotel)
    (hok : merge_hotel_data hotels = .ok out) :
    out.map Hotel.id = (keepFirstAux [] (hotels.filterMap validId)).map some
    ∧ (keepFirstAux [] (hotels.filterMap validId)).Nodup
    ∧ (∀ i, i ∈ keepFirstAux [] (hotels.filterMap validId) ↔ i ∈ hotels.filterMap validId)
    ∧ merge_hotel_data (hotels.filter (fun h => truthyS h.id)) = .ok out := by
  unfold merge_hotel_data at hok ⊢
  cases hfold : mergeFold [] hotels with
  | error err =>
    rw [hfold] at hok
    exact absurd hok (by simp [Except.map])
  | ok res =>
    rw [hfold] at hok
    have hout : res.map Prod.snd = out := by simpa [Except.map] using hok
    obtain ⟨hres1, hres2⟩ := mergeFold_spec hotels [] res (by simp) hfold
    refine ⟨?_, keepFirstAux_nodup _ _, ?_, ?_⟩
    · rw [← hout, List.map_map]
      have hcongr : ∀ p ∈ res, (Hotel.id ∘ Prod.snd) p = (some ∘ Prod.fst) p := by
        intro p hp
        exact hres1 p hp
      rw [List.map_congr_left hcongr]
      have hsplit : res.map (some ∘ Prod.fst) = (res.map Prod.fst).map some :=
        (List.map_map some Prod.fst res).symm
      rw [hsplit, hres2]
      simp
    · intro i
      rw [keepFirstAux_mem]
      simp
    · rw [mergeFold_filter hotels [], hfold, ← hout]
      rfl

theorem claim_C1_witness :
    ∃ out, merge_hotel_data recC1list = .ok out
      ∧ out.map Hotel.id = (keepFirstAux [] (recC1list.filterMap validId)).map some
      ∧ merge_hotel_data (recC1list.filter (fun h => truthyS h.id)) = .ok out := by
  refine ⟨_, rfl, ?_, ?_⟩
  · exact (claim_C1 recC1list _ rfl).1
  · exact (claim_C1 recC1list _ rfl).2.2.2

end HotelMerger
